import Mathlib

/-!
# Checked conversions and sized string equality of `src/utils.c`

A shallow embedding of the utility functions of the treesitter R package
(`src/utils.c`) together with theorems about them.

* Machine integers are mathematical integers (`Int`); every C cast is an
  explicit reduction modulo a power of two (`toUnsigned`, `toSigned`).
* `r_abort(fmt, ...)` does not return.  A function that may call it returns
  `Except Abort _`, the error carrying the format string and the arguments
  the call was made with.
* `r_ssize` has a platform dependent width (see the comment in
  `r_ssize_as_uint32`); the width `w` is a parameter wherever it matters.
* A `const char*` is the memory found from the pointer on; `strcmp` and
  `strlen`, which run up to a terminator, take fuel.
* Host values (`r_obj*`) and `r_globals` are declared outside `utils.c`; the
  values are modelled as typed sequences and `r_globals` is a parameter.
-/

namespace Treesitter

/-! ## Machine integers -/

/-- Result of casting the integer `n` to the unsigned `w`-bit type. -/
def toUnsigned (w : Nat) (n : Int) : Int := n % 2 ^ w

/-- Result of casting the integer `n` to the signed `w`-bit type
(two's complement wrap-around). -/
def toSigned (w : Nat) (n : Int) : Int := (n + 2 ^ (w - 1)) % 2 ^ w - 2 ^ (w - 1)

/-- The integer `n` is a value of the signed `w`-bit type. -/
abbrev IsSigned (w : Nat) (n : Int) : Prop := -(2 ^ (w - 1)) ≤ n ∧ n < 2 ^ (w - 1)

/-- The integer `n` is a value of the unsigned `w`-bit type. -/
abbrev IsUnsigned (w : Nat) (n : Int) : Prop := 0 ≤ n ∧ n < 2 ^ w

/-- Largest `uint32_t`. -/
def UINT32_MAX : Int := 4294967295

/-- Largest `uint16_t`. -/
def UINT16_MAX : Int := 65535

/-- Largest `int` (R requires a 32-bit `int`). -/
def INT_MAX : Int := 2147483647

/-! ## The error channel -/

/-- One variadic argument of an `r_abort` call: a `%s` or a `%i` argument. -/
inductive FmtArg where
  | str (s : String)
  | int (i : Int)
  deriving DecidableEq, Repr

/-- What an `r_abort(fmt, ...)` call was made with. -/
structure Abort where
  fmt : String
  args : List FmtArg
  deriving DecidableEq, Repr

/-- The call `r_abort(fmt, args...)`: control does not come back. -/
def r_abort {α : Type} (fmt : String) (args : List FmtArg) : Except Abort α :=
  Except.error { fmt := fmt, args := args }

/-- Error kinds of the specification (its section 7). -/
inductive ErrorKind where
  | ShapeError
  | RangeError
  | MissingValueError
  | NotWholeNumberError
  deriving DecidableEq, Repr

/-- Format strings of the range failures in `utils.c`, one per conversion. -/
def rangeFormats : List String :=
  [ "Can't convert `x` to `uint32_t`. `x` must be within the range of `[0, UINT32_MAX]`."
  , "Can't convert `%s` to `uint32_t`. `%s` must be within the range of `[0, UINT32_MAX]`."
  , "Can't convert `%s` to `TSSymbol`. `%s` must be within the range of `[0, UINT16_MAX]`."
  , "Can't convert `%s` to `TSFieldId`. `%s` must be within the range of `[0, UINT16_MAX]`."
  , "Can't convert `%s` to `TSStateId`. `%s` must be within the range of `[0, UINT16_MAX]`."
  , "Can't convert `%s` to `int`. `%s` must be within the range of `[0, INT_MAX]`." ]

/-- Format strings of the argument shape failures in `utils.c`. -/
def shapeFormats : List String :=
  [ "%s must be a string."
  , "%s must be length 1, not length %i." ]

/-- The specification's error kind of an abort, read off the message the
code aborts with: the specification names kinds, the code only has messages. -/
def Abort.kind (a : Abort) : Option ErrorKind :=
  if a.fmt ∈ shapeFormats then some ErrorKind.ShapeError
  else if a.fmt ∈ rangeFormats then some ErrorKind.RangeError
  else if a.fmt = "`%s` can't be missing" then some ErrorKind.MissingValueError
  else if a.fmt = "`%s` must be a whole number." then some ErrorKind.NotWholeNumberError
  else none

/-- A computation failed with an abort of the given kind. -/
def failsWith {α : Type} (r : Except Abort α) (k : ErrorKind) : Prop :=
  match r with
  | Except.error a => a.kind = some k
  | Except.ok _ => False

/-- Whether a computation failed with a given kind can be computed. -/
instance failsWith.decidable {α : Type} (r : Except Abort α) (k : ErrorKind) :
    Decidable (failsWith r k) :=
  match r with
  | Except.error a => inferInstanceAs (Decidable (a.kind = some k))
  | Except.ok _ => inferInstanceAs (Decidable False)

/-! ## Index type conversions -/

/-- Embedding of `r_ssize_as_uint32`.  `x` is a value of the signed index type
`r_ssize`; both sides of the upper comparison are cast to `uint64_t`. -/
def r_ssize_as_uint32 (x : Int) : Except Abort Int :=
  if x < 0 ∨ toUnsigned 64 x > toUnsigned 64 UINT32_MAX then
    r_abort
      "Can't convert `x` to `uint32_t`. `x` must be within the range of `[0, UINT32_MAX]`."
      []
  else
    pure (toUnsigned 32 x)

/-- Embedding of `r_uint32_as_r_ssize`: the cast `(r_ssize) x`, for an `r_ssize`
of `w` bits. -/
def r_uint32_as_r_ssize (w : Nat) (x : Int) : Int := toSigned w x

/-! ## Doubles

The operations `utils.c` applies to a `double` (`isnan`, the comparisons,
`floor`, the casts from and to `uint32_t`) are all exact: none of them rounds.
A double is therefore modelled by the number it denotes, and the operations by
integer arithmetic on significands brought to a common exponent. -/

/-- An IEEE-754 binary64 datum.  `finite neg m e` is the number
`(-1)^neg * m * 2^e`; both zeros are finite. -/
inductive Double where
  | nan
  | inf (neg : Bool)
  | finite (neg : Bool) (m : Nat) (e : Int)
  deriving DecidableEq, Repr

namespace Double

/-- The finite data a binary64 holds: a significand of at most 53 bits and an
exponent between -1074 and 971. -/
def isBinary64 : Double → Prop
  | finite _ m e => m < 2 ^ 53 ∧ -1074 ≤ e ∧ e ≤ 971
  | _ => True

/-- The significand with its sign. -/
def signed (neg : Bool) (m : Nat) : Int := if neg then -(m : Int) else (m : Int)

/-- The integer `signed neg m * 2 ^ (e - b)`, for a base exponent `b ≤ e`. -/
def scaled (neg : Bool) (m : Nat) (e b : Int) : Int := signed neg m * 2 ^ (e - b).toNat

/-- The rational number `(-1)^neg * m * 2^e`. -/
def value (neg : Bool) (m : Nat) (e : Int) : ℚ := (signed neg m : ℚ) * 2 ^ e

/-- The number a double denotes, when it is finite. -/
def toRat : Double → Option ℚ
  | finite neg m e => some (value neg m e)
  | _ => none

/-- The C library `isnan`. -/
def isnan : Double → Bool
  | nan => true
  | _ => false

/-- The comparison `x < y` of C: false whenever an operand is NaN. -/
def lt : Double → Double → Bool
  | finite n1 m1 e1, finite n2 m2 e2 =>
    decide (scaled n1 m1 e1 (min e1 e2) < scaled n2 m2 e2 (min e1 e2))
  | inf n1, inf n2 => n1 && !n2
  | inf n1, finite _ _ _ => n1
  | finite _ _ _, inf n2 => !n2
  | nan, _ => false
  | _, nan => false

/-- The comparison `x != y` of C: true whenever an operand is NaN. -/
def ne : Double → Double → Bool
  | finite n1 m1 e1, finite n2 m2 e2 =>
    decide (scaled n1 m1 e1 (min e1 e2) ≠ scaled n2 m2 e2 (min e1 e2))
  | inf n1, inf n2 => n1 != n2
  | inf _, finite _ _ _ => true
  | finite _ _ _, inf _ => true
  | nan, _ => true
  | _, nan => true

/-- The C library `floor`: the largest whole number not above `x`; NaN and the
infinities are returned as they are. -/
def floor : Double → Double
  | finite neg m e =>
    if 0 ≤ e then finite neg m e
    else finite neg (signed neg m / 2 ^ (-e).toNat).natAbs 0
  | x => x

/-- The cast `(double) n` of an integer `n` with `|n| < 2^53`, which is exact. -/
def ofInt (n : Int) : Double := finite (decide (n < 0)) n.natAbs 0

/-- The cast `(uint32_t) x`: the fractional part is discarded (truncation
toward zero).  C leaves the cast undefined when the truncated value is not a
`uint32_t`, and for NaN and the infinities; `r_dbl_as_uint32` only reaches
the cast with a value in range. -/
def toUInt32 : Double → Int
  | finite neg m e =>
    toUnsigned 32
      (if 0 ≤ e then signed neg m * 2 ^ e.toNat
       else Int.tdiv (signed neg m) (2 ^ (-e).toNat))
  | _ => 0

end Double

/-- Embedding of `r_dbl_as_uint32`. -/
def r_dbl_as_uint32 (x : Double) (arg : String) : Except Abort Int :=
  if x.isnan then
    r_abort "`%s` can't be missing" [FmtArg.str arg]
  else if (Double.ofInt UINT32_MAX).lt x || x.lt (Double.ofInt 0) then
    r_abort
      "Can't convert `%s` to `uint32_t`. `%s` must be within the range of `[0, UINT32_MAX]`."
      [FmtArg.str arg, FmtArg.str arg]
  else if x.floor.ne x then
    r_abort "`%s` must be a whole number." [FmtArg.str arg]
  else
    pure x.toUInt32

/-- Embedding of `r_uint32_as_dbl`: the cast `(double) x`. -/
def r_uint32_as_dbl (x : Int) : Double := Double.ofInt x

/-! ## Identifier conversions

`TSSymbol`, `TSFieldId` and `TSStateId` are `uint16_t`; `int` has 32 bits. -/

/-- Embedding of `r_int_as_TSSymbol`. -/
def r_int_as_TSSymbol (x : Int) (arg : String) : Except Abort Int :=
  if x > toSigned 32 UINT16_MAX ∨ x < 0 then
    r_abort
      "Can't convert `%s` to `TSSymbol`. `%s` must be within the range of `[0, UINT16_MAX]`."
      [FmtArg.str arg, FmtArg.str arg]
  else
    pure (toUnsigned 16 x)

/-- Embedding of `r_TSSymbol_as_int`: the cast `(int) x`. -/
def r_TSSymbol_as_int (x : Int) : Int := toSigned 32 x

/-- Embedding of `r_int_as_TSFieldId`. -/
def r_int_as_TSFieldId (x : Int) (arg : String) : Except Abort Int :=
  if x > toSigned 32 UINT16_MAX ∨ x < 0 then
    r_abort
      "Can't convert `%s` to `TSFieldId`. `%s` must be within the range of `[0, UINT16_MAX]`."
      [FmtArg.str arg, FmtArg.str arg]
  else
    pure (toUnsigned 16 x)

/-- Embedding of `r_TSFieldId_as_int`: the cast `(int) x`. -/
def r_TSFieldId_as_int (x : Int) : Int := toSigned 32 x

/-- Embedding of `r_int_as_TSStateId`. -/
def r_int_as_TSStateId (x : Int) (arg : String) : Except Abort Int :=
  if x > toSigned 32 UINT16_MAX ∨ x < 0 then
    r_abort
      "Can't convert `%s` to `TSStateId`. `%s` must be within the range of `[0, UINT16_MAX]`."
      [FmtArg.str arg, FmtArg.str arg]
  else
    pure (toUnsigned 16 x)

/-- Embedding of `r_TSStateId_as_int`: the cast `(int) x`. -/
def r_TSStateId_as_int (x : Int) : Int := toSigned 32 x

/-- Embedding of `r_uint32_as_int`.  The comparison `x < 0` is made on the
unsigned `x` (the `int` constant `0` is converted to unsigned). -/
def r_uint32_as_int (x : Int) (arg : String) : Except Abort Int :=
  if x > toUnsigned 32 INT_MAX ∨ x < toUnsigned 32 0 then
    r_abort
      "Can't convert `%s` to `int`. `%s` must be within the range of `[0, INT_MAX]`."
      [FmtArg.str arg, FmtArg.str arg]
  else
    pure (toSigned 32 x)

/-! ## Sized string equality -/

/-- A `const char*`: the byte found at each offset from the pointer.  Offsets
past the declared length of a view are part of the memory all the same. -/
abbrev CharPtr := Nat → Nat

/-- The memory holding the given bytes, followed by nul bytes. -/
def cstr (bytes : List Nat) : CharPtr := fun i => bytes.getD i 0

/-- The C library `strncmp(s1 + i, s2 + i, n)`, ISO C 7.24.4.4: at most `n`
characters are compared, as `unsigned char`, and characters that follow a
nul character are not compared. -/
def strncmpFrom (s1 s2 : CharPtr) (i : Nat) : Nat → Int
  | 0 => 0
  | n + 1 =>
    if s1 i ≠ s2 i then (s1 i : Int) - (s2 i : Int)
    else if s1 i = 0 then 0
    else strncmpFrom s1 s2 (i + 1) n

/-- The C library `strncmp(s1, s2, n)`. -/
def strncmp (s1 s2 : CharPtr) (n : Nat) : Int := strncmpFrom s1 s2 0 n

/-- Embedding of `str_equal_sized`. -/
def str_equal_sized (x y : CharPtr) (x_size y_size : Nat) : Bool :=
  if x_size ≠ y_size then
    false
  else
    strncmp x y x_size == 0

/-- The offsets at which `strncmp(s1 + i, s2 + i, n)` reads its two arguments,
next to its result: `strncmpFrom` with every read of `s1 i` and `s2 i`
recorded. -/
def strncmpFromTraced (s1 s2 : CharPtr) (i : Nat) : Nat → Int × List Nat
  | 0 => (0, [])
  | n + 1 =>
    if s1 i ≠ s2 i then ((s1 i : Int) - (s2 i : Int), [i])
    else if s1 i = 0 then (0, [i])
    else ((strncmpFromTraced s1 s2 (i + 1) n).1, i :: (strncmpFromTraced s1 s2 (i + 1) n).2)

/-- The function `str_equal_sized` with the offsets read in `x` and `y`
recorded: none when the sizes differ, those of `strncmp` otherwise. -/
def str_equal_sized_traced (x y : CharPtr) (x_size y_size : Nat) : Bool × List Nat :=
  if x_size ≠ y_size then
    (false, [])
  else
    ((strncmpFromTraced x y 0 x_size).1 == 0, (strncmpFromTraced x y 0 x_size).2)

/-! ## Terminator based string equality

`strcmp` and `strlen` run until they meet a nul byte, which the memory may not
hold: they are given an amount of fuel, the number of bytes they may visit,
and return `none` when it is used up. -/

/-- The string at `x` is nul terminated and `n` is its length: the first nul
byte is at offset `n`. -/
def IsCStr (x : CharPtr) (n : Nat) : Prop := x n = 0 ∧ ∀ i, i < n → x i ≠ 0

/-- The C library `strlen(s)`, counting from offset `i`, ISO C 7.24.6.3. -/
def strlenFrom (s : CharPtr) (i : Nat) : Nat → Option Nat
  | 0 => none
  | fuel + 1 => if s i = 0 then some i else strlenFrom s (i + 1) fuel

/-- The C library `strlen(s)`. -/
def strlen (s : CharPtr) (fuel : Nat) : Option Nat := strlenFrom s 0 fuel

/-- The C library `strcmp(s1 + i, s2 + i)`, ISO C 7.24.4.2: characters are
compared as `unsigned char` up to the first difference or nul character. -/
def strcmpFrom (s1 s2 : CharPtr) (i : Nat) : Nat → Option Int
  | 0 => none
  | fuel + 1 =>
    if s1 i ≠ s2 i then some ((s1 i : Int) - (s2 i : Int))
    else if s1 i = 0 then some 0
    else strcmpFrom s1 s2 (i + 1) fuel

/-- The C library `strcmp(s1, s2)`. -/
def strcmp (s1 s2 : CharPtr) (fuel : Nat) : Option Int := strcmpFrom s1 s2 0 fuel

/-- Embedding of `str_equal`. -/
def str_equal (x y : CharPtr) (fuel : Nat) : Option Bool :=
  (strcmp x y fuel).map (fun r => r == 0)

/-! ## Host values

`r_obj`, `r_typeof`, `r_length`, `r_chr_get`, the `cbegin` accessors and
`r_globals` are declared outside `utils.c`; what `utils.c` needs of them is
modelled here. -/

/-- Modelled from the spec: the kinds of host value `r_typeof` tells apart
(the enumeration is declared outside `utils.c`); only `R_TYPE_character`,
`R_TYPE_logical` and `R_TYPE_integer` matter here. -/
inductive RType where
  | R_TYPE_logical
  | R_TYPE_integer
  | R_TYPE_character
  | R_TYPE_other
  deriving DecidableEq, Repr

/-- Modelled from the spec: the host value behind an `r_obj*` (the type is
declared outside `utils.c`): a homogeneous sequence of booleans, of integers or
of text references, or a value of another kind of which only the length is
kept.  Booleans and integers are stored as `int`, a text element is the
reference (address) of a string object. -/
inductive RObj where
  | lgl (xs : List Int)
  | int (xs : List Int)
  | chr (xs : List Nat)
  | other (length : Nat)
  deriving DecidableEq, Repr

/-- Modelled from the spec: the reserved missing value of each element kind,
the fields of `r_globals` that `utils.c` reads (declared outside `utils.c`):
a reserved boolean value, a reserved integer value, a reserved text
reference. -/
structure Globals where
  na_lgl : Int
  na_int : Int
  na_str : Nat
  deriving DecidableEq, Repr

/-- Modelled from the spec: `r_typeof`, the kind of a host value (defined
outside `utils.c`). -/
def r_typeof : RObj → RType
  | RObj.lgl _ => RType.R_TYPE_logical
  | RObj.int _ => RType.R_TYPE_integer
  | RObj.chr _ => RType.R_TYPE_character
  | RObj.other _ => RType.R_TYPE_other

/-- Modelled from the spec: `r_length`, the number of elements of a host
value, an `r_ssize` (defined outside `utils.c`). -/
def r_length : RObj → Int
  | RObj.lgl xs => xs.length
  | RObj.int xs => xs.length
  | RObj.chr xs => xs.length
  | RObj.other length => length

/-- Modelled from the spec: `r_chr_get(x, i)`, element `i` of a text sequence
(defined outside `utils.c`); `utils.c` calls it on text sequences only. -/
def r_chr_get (x : RObj) (i : Nat) : Nat :=
  match x with
  | RObj.chr xs => xs.getD i 0
  | _ => 0

/-- Modelled from the spec: `r_lgl_cbegin(x)`, the pointer to the elements of
a boolean sequence, as the element found at each index (defined outside
`utils.c`). -/
def r_lgl_cbegin (x : RObj) : Nat → Int :=
  match x with
  | RObj.lgl xs => fun i => xs.getD i 0
  | _ => fun _ => 0

/-- Modelled from the spec: `r_int_cbegin(x)`, the pointer to the elements of
an integer sequence (defined outside `utils.c`). -/
def r_int_cbegin (x : RObj) : Nat → Int :=
  match x with
  | RObj.int xs => fun i => xs.getD i 0
  | _ => fun _ => 0

/-- Modelled from the spec: `r_chr_cbegin(x)`, the pointer to the elements of
a text sequence (defined outside `utils.c`). -/
def r_chr_cbegin (x : RObj) : Nat → Nat :=
  match x with
  | RObj.chr xs => fun i => xs.getD i 0
  | _ => fun _ => 0

/-- Embedding of `r_arg_as_string`.  The length put in the message is
`(int) r_length(x)`. -/
def r_arg_as_string (x : RObj) (arg : String) : Except Abort Nat :=
  if r_typeof x ≠ RType.R_TYPE_character then
    r_abort "%s must be a string." [FmtArg.str arg]
  else if r_length x ≠ 1 then
    r_abort "%s must be length 1, not length %i."
      [FmtArg.str arg, FmtArg.int (toSigned 32 (r_length x))]
  else
    pure (r_chr_get x 0)

/-- The loop of the three missing value scans,
`for (; i < size; ++i) if (v_x[i] == na) return true; return false`,
with `n = size - i` iterations left. -/
def anyMissingFrom {α : Type} [DecidableEq α] (v_x : Nat → α) (na : α) (i : Nat) : Nat → Bool
  | 0 => false
  | n + 1 => if v_x i = na then true else anyMissingFrom v_x na (i + 1) n

/-- Embedding of `r_lgl_any_missing`. -/
def r_lgl_any_missing (r_globals : Globals) (x : RObj) : Bool :=
  anyMissingFrom (r_lgl_cbegin x) r_globals.na_lgl 0 (r_length x).toNat

/-- Embedding of `r_int_any_missing`. -/
def r_int_any_missing (r_globals : Globals) (x : RObj) : Bool :=
  anyMissingFrom (r_int_cbegin x) r_globals.na_int 0 (r_length x).toNat

/-- Embedding of `r_chr_any_missing`. -/
def r_chr_any_missing (r_globals : Globals) (x : RObj) : Bool :=
  anyMissingFrom (r_chr_cbegin x) r_globals.na_str 0 (r_length x).toNat

/-! ## What a failure carries -/

/-- The abort was given the name `arg` among its arguments. -/
def Abort.namesArg (a : Abort) (arg : String) : Prop := FmtArg.str arg ∈ a.args

/-- The text `bound` is part of the message of the abort. -/
def Abort.statesBound (a : Abort) (bound : String) : Prop := bound.data <:+: a.fmt.data

/-- Whether a text is part of the message of an abort can be computed. -/
instance Abort.statesBound.decidable (a : Abort) (bound : String) :
    Decidable (a.statesBound bound) :=
  inferInstanceAs (Decidable (bound.data <:+: a.fmt.data))

/-! ## Theorems -/

/-- C1: for either width of the signed index type (32 or 64 bits) and every
index value `v` with `0 <= v <= UINT32_MAX`, `r_ssize_as_uint32 v` succeeds and
`r_uint32_as_r_ssize` maps its result back to `v`. -/
theorem r_ssize_uint32_roundtrip (w : Nat) (v : Int) (hw : w = 32 ∨ w = 64)
    (hv : IsSigned w v) (h0 : 0 ≤ v) (h1 : v ≤ UINT32_MAX) :
    Except.map (r_uint32_as_r_ssize w) (r_ssize_as_uint32 v) = Except.ok v := by
  have hlo : ¬ (v < 0 ∨ toUnsigned 64 v > toUnsigned 64 UINT32_MAX) := by
    simp only [toUnsigned, UINT32_MAX] at *
    omega
  simp only [r_ssize_as_uint32, if_neg hlo, pure, Except.pure, Except.map, r_uint32_as_r_ssize]
  congr 1
  rcases hw with rfl | rfl <;>
    simp only [toUnsigned, toSigned, UINT32_MAX, IsSigned] at * <;> omega

/-- Witness of C1 on a 32-bit index type, at the largest index. -/
theorem r_ssize_uint32_roundtrip_witness :
    IsSigned 32 2147483647 ∧
      Except.map (r_uint32_as_r_ssize 32) (r_ssize_as_uint32 2147483647)
        = Except.ok 2147483647 :=
  ⟨by decide, r_ssize_uint32_roundtrip 32 2147483647 (Or.inl rfl) (by decide) (by decide)
    (by decide)⟩

/-- An abort has the kind of its format string, whatever its arguments. -/
theorem failsWith_r_abort {α : Type} (fmt : String) (args : List FmtArg) (k : ErrorKind) :
    failsWith (r_abort fmt args : Except Abort α) k ↔
      Abort.kind { fmt := fmt, args := [] } = some k :=
  Iff.rfl

/-- C2: for either width of the signed index type and every index value `v`,
`r_ssize_as_uint32 v` fails with a range error exactly when `v < 0` or
`v > UINT32_MAX`, and otherwise returns `v` itself. -/
theorem r_ssize_as_uint32_fails_iff (w : Nat) (v : Int) (hw : w = 32 ∨ w = 64)
    (hv : IsSigned w v) :
    (failsWith (r_ssize_as_uint32 v) ErrorKind.RangeError ↔ (v < 0 ∨ v > UINT32_MAX)) ∧
      (¬ (v < 0 ∨ v > UINT32_MAX) → r_ssize_as_uint32 v = Except.ok v) := by
  have hcond : (v < 0 ∨ toUnsigned 64 v > toUnsigned 64 UINT32_MAX)
      ↔ (v < 0 ∨ v > UINT32_MAX) := by
    rcases hw with rfl | rfl <;>
      simp only [toUnsigned, UINT32_MAX, IsSigned] at * <;> omega
  by_cases h : v < 0 ∨ v > UINT32_MAX
  · have h2 := hcond.mpr h
    refine ⟨?_, fun hn => absurd h hn⟩
    simp only [r_ssize_as_uint32, if_pos h2, r_abort, failsWith, h, iff_true]
    decide
  · have h2 : ¬ (v < 0 ∨ toUnsigned 64 v > toUnsigned 64 UINT32_MAX) :=
      fun hc => h (hcond.mp hc)
    have hval : toUnsigned 32 v = v := by
      simp only [toUnsigned, UINT32_MAX] at *
      omega
    refine ⟨?_, fun _ => ?_⟩
    · simp only [r_ssize_as_uint32, if_neg h2, pure, Except.pure, failsWith, h]
    · simp only [r_ssize_as_uint32, if_neg h2, pure, Except.pure, hval]

/-- Witness of C2 on a 64-bit index type, one past `UINT32_MAX`. -/
theorem r_ssize_as_uint32_fails_iff_witness :
    IsSigned 64 4294967296 ∧
      (failsWith (r_ssize_as_uint32 4294967296) ErrorKind.RangeError
        ↔ ((4294967296 : Int) < 0 ∨ (4294967296 : Int) > UINT32_MAX)) :=
  ⟨by decide, (r_ssize_as_uint32_fails_iff 64 4294967296 (Or.inr rfl) (by decide)).1⟩

/-- What `strncmp` returning zero means: the two strings agree at every offset
below `n` that no nul byte of `s1` precedes. -/
theorem strncmpFrom_eq_zero_iff (s1 s2 : CharPtr) (n : Nat) : ∀ i : Nat,
    strncmpFrom s1 s2 i n = 0 ↔
      ∀ k, k < n → (∀ j, j < k → s1 (i + j) ≠ 0) → s1 (i + k) = s2 (i + k) := by
  induction n with
  | zero =>
    intro i
    simp [strncmpFrom]
  | succ n ih =>
    intro i
    unfold strncmpFrom
    by_cases hne : s1 i ≠ s2 i
    · rw [if_pos hne]
      constructor
      · intro h
        exfalso
        apply hne
        omega
      · intro h
        exact absurd (h 0 (Nat.succ_pos n) (fun j hj => absurd hj (Nat.not_lt_zero j))) hne
    · rw [if_neg hne]
      have heq : s1 i = s2 i := not_not.mp hne
      by_cases hz : s1 i = 0
      · rw [if_pos hz]
        refine ⟨fun _ k _ hk => ?_, fun _ => rfl⟩
        cases k with
        | zero => exact heq
        | succ k => exact absurd hz (hk 0 (Nat.succ_pos k))
      · rw [if_neg hz, ih (i + 1)]
        constructor
        · intro h k hk hnz
          cases k with
          | zero => exact heq
          | succ k =>
            have := h k (by omega) (fun j hj => by
              have := hnz (j + 1) (by omega)
              rwa [show i + 1 + j = i + (j + 1) by omega])
            rwa [show i + 1 + k = i + (k + 1) by omega] at this
        · intro h k hk hnz
          have := h (k + 1) (by omega) (fun j hj => by
            cases j with
            | zero => exact hz
            | succ j =>
              have := hnz j (by omega)
              rwa [show i + 1 + j = i + (j + 1) by omega] at this)
          rwa [show i + (k + 1) = i + 1 + k by omega] at this

/-- Characterisation of `str_equal_sized`. -/
theorem str_equal_sized_iff (x y : CharPtr) (x_size y_size : Nat) :
    str_equal_sized x y x_size y_size = true ↔
      x_size = y_size ∧ ∀ k, k < x_size → (∀ j, j < k → x j ≠ 0) → x k = y k := by
  unfold str_equal_sized
  by_cases hs : x_size = y_size
  · have h := strncmpFrom_eq_zero_iff x y x_size 0
    simp only [Nat.zero_add] at h
    simp only [ne_eq, hs, not_true_eq_false, if_false, strncmp, beq_iff_eq, true_and]
    rw [← hs]
    exact h
  · simp [hs]

/-- C3, as stated, fails: the two three-byte spans `a\0b` and `a\0c` differ in
their last byte, yet `str_equal_sized` calls them equal, because `strncmp`
stops at the nul byte. -/
theorem str_equal_sized_nul_counterexample :
    ¬ (str_equal_sized (cstr [97, 0, 98]) (cstr [97, 0, 99]) 3 3 = true ↔
        (3 = 3 ∧ ∀ k, k < 3 → cstr [97, 0, 98] k = cstr [97, 0, 99] k)) := by
  intro h
  have hall := (h.mp (by decide)).2
  exact absurd (hall 2 (by decide)) (by decide)

/-- C3, amended: `str_equal_sized` returns true if and only if the declared
lengths are equal and the two spans agree on every byte of the first `x_size`
that is not preceded by a nul byte of `x` (so on all bytes up to and including
the first nul byte, and on all `x_size` bytes when there is none). -/
theorem str_equal_sized_true_iff (x y : CharPtr) (x_size y_size : Nat) :
    str_equal_sized x y x_size y_size = true ↔
      (x_size = y_size ∧
        ∀ k, k < x_size → (∀ j, j < k → x j ≠ 0) → x k = y k) :=
  str_equal_sized_iff x y x_size y_size

/-- Use of the amended C3 on the spans `a\0b` and `a\0c`: the bytes after the
nul byte are not looked at. -/
theorem str_equal_sized_true_iff_witness :
    str_equal_sized (cstr [97, 0, 98]) (cstr [97, 0, 99]) 3 3 = true :=
  (str_equal_sized_true_iff (cstr [97, 0, 98]) (cstr [97, 0, 99]) 3 3).mpr
    ⟨rfl, by
      intro k hk hnz
      match k, hk, hnz with
      | 0, _, _ => rfl
      | 1, _, _ => rfl
      | 2, _, hnz => exact absurd rfl (hnz 1 (by decide))⟩

/-- C4: two spans whose declared lengths differ are never equal, whatever
their bytes are. -/
theorem str_equal_sized_length_mismatch (x y : CharPtr) (x_size y_size : Nat)
    (h : x_size ≠ y_size) : str_equal_sized x y x_size y_size = false := by
  simp [str_equal_sized, h]

/-- Witness of C4: `foo` of length 3 against `foobar` of length 6. -/
theorem str_equal_sized_length_mismatch_witness :
    (3 : Nat) ≠ 6 ∧
      str_equal_sized (cstr [102, 111, 111]) (cstr [102, 111, 111, 98, 97, 114]) 3 6 = false :=
  ⟨by decide,
    str_equal_sized_length_mismatch (cstr [102, 111, 111]) (cstr [102, 111, 111, 98, 97, 114])
      3 6 (by decide)⟩

/-- C5: two spans of the same declared length `n` without a nul byte among
their first `n` bytes are equal for `str_equal_sized` if and only if they are
identical byte for byte. -/
theorem str_equal_sized_no_nul (x y : CharPtr) (n : Nat)
    (hx : ∀ i, i < n → x i ≠ 0) (_hy : ∀ i, i < n → y i ≠ 0) :
    str_equal_sized x y n n = true ↔ ∀ i, i < n → x i = y i := by
  rw [str_equal_sized_iff]
  constructor
  · intro h i hi
    exact h.2 i hi (fun j hj => hx j (Nat.lt_trans hj hi))
  · intro h
    exact ⟨rfl, fun k hk _ => h k hk⟩

/-- Witness of C5: two empty spans are equal, `foo` equals `foo`, and `fob`
does not equal `foo`. -/
theorem str_equal_sized_no_nul_witness :
    str_equal_sized (cstr []) (cstr []) 0 0 = true ∧
      str_equal_sized (cstr [102, 111, 111]) (cstr [102, 111, 111]) 3 3 = true ∧
      str_equal_sized (cstr [102, 111, 98]) (cstr [102, 111, 111]) 3 3 = false := by
  refine ⟨?_, ?_, ?_⟩
  · exact (str_equal_sized_no_nul (cstr []) (cstr []) 0
      (fun i hi => absurd hi (Nat.not_lt_zero i))
      (fun i hi => absurd hi (Nat.not_lt_zero i))).mpr
      (fun i hi => absurd hi (Nat.not_lt_zero i))
  · exact (str_equal_sized_no_nul (cstr [102, 111, 111]) (cstr [102, 111, 111]) 3
      (by decide) (by decide)).mpr (fun _ _ => rfl)
  · have h := str_equal_sized_no_nul (cstr [102, 111, 98]) (cstr [102, 111, 111]) 3
      (by decide) (by decide)
    cases hb : str_equal_sized (cstr [102, 111, 98]) (cstr [102, 111, 111]) 3 3 with
    | false => rfl
    | true => exact absurd (h.mp hb 2 (by decide)) (by decide)

/-! ### The model of doubles against the numbers they denote -/

/-- A finite double is its scaled significand times the base exponent. -/
theorem Double.value_eq_scaled (neg : Bool) (m : Nat) (e b : Int) (h : b ≤ e) :
    Double.value neg m e = (Double.scaled neg m e b : ℚ) * 2 ^ b := by
  have hk : ((e - b).toNat : Int) = e - b := Int.toNat_of_nonneg (sub_nonneg.mpr h)
  have hpow : (2 : ℚ) ^ e = 2 ^ (e - b).toNat * 2 ^ b := by
    rw [← zpow_natCast, ← zpow_add₀ (two_ne_zero), hk, sub_add_cancel]
  unfold Double.value Double.scaled
  rw [hpow]
  push_cast
  ring

/-- A finite double with a non-negative exponent denotes an integer. -/
theorem Double.value_of_nonneg (neg : Bool) (m : Nat) (e : Int) (h : 0 ≤ e) :
    Double.value neg m e = ((Double.signed neg m * 2 ^ e.toNat : Int) : ℚ) := by
  have h0 := Double.value_eq_scaled neg m e 0 h
  simp only [Double.scaled, sub_zero, zpow_zero, mul_one] at h0
  exact h0

/-- A finite double with a negative exponent denotes a quotient. -/
theorem Double.value_of_neg (neg : Bool) (m : Nat) (e : Int) (h : ¬ 0 ≤ e) :
    Double.value neg m e = (Double.signed neg m : ℚ) / ((2 ^ (-e).toNat : Nat) : ℚ) := by
  have hk : (((-e).toNat : Nat) : Int) = -e := Int.toNat_of_nonneg (by omega)
  have hpow : (2 : ℚ) ^ e = ((2 : ℚ) ^ (-e).toNat)⁻¹ := by
    rw [← zpow_natCast, hk, zpow_neg, inv_inv]
  unfold Double.value
  rw [hpow]
  push_cast
  rw [div_eq_mul_inv]

/-- `Double.lt` on finite doubles is the order of the numbers they denote. -/
theorem Double.lt_finite_iff (n1 : Bool) (m1 : Nat) (e1 : Int) (n2 : Bool) (m2 : Nat)
    (e2 : Int) :
    (Double.finite n1 m1 e1).lt (Double.finite n2 m2 e2) = true ↔
      Double.value n1 m1 e1 < Double.value n2 m2 e2 := by
  have hpos : (0 : ℚ) < 2 ^ min e1 e2 := zpow_pos (by norm_num) _
  rw [Double.value_eq_scaled n1 m1 e1 (min e1 e2) (min_le_left e1 e2),
    Double.value_eq_scaled n2 m2 e2 (min e1 e2) (min_le_right e1 e2),
    mul_lt_mul_right hpos, Int.cast_lt]
  simp only [Double.lt, decide_eq_true_eq]

/-- `Double.ne` on finite doubles is inequality of the numbers they denote. -/
theorem Double.ne_finite_iff (n1 : Bool) (m1 : Nat) (e1 : Int) (n2 : Bool) (m2 : Nat)
    (e2 : Int) :
    (Double.finite n1 m1 e1).ne (Double.finite n2 m2 e2) = true ↔
      Double.value n1 m1 e1 ≠ Double.value n2 m2 e2 := by
  have hpos : (2 : ℚ) ^ min e1 e2 ≠ 0 := zpow_ne_zero _ two_ne_zero
  rw [Double.value_eq_scaled n1 m1 e1 (min e1 e2) (min_le_left e1 e2),
    Double.value_eq_scaled n2 m2 e2 (min e1 e2) (min_le_right e1 e2)]
  simp only [Double.ne, decide_eq_true_eq, ne_eq, mul_left_inj' hpos, Int.cast_inj]

/-- The cast of an integer to a double denotes that integer. -/
theorem Double.value_ofInt (n : Int) :
    Double.value (decide (n < 0)) n.natAbs 0 = (n : ℚ) := by
  have h : Double.signed (decide (n < 0)) n.natAbs = n := by
    unfold Double.signed
    by_cases hn : n < 0
    · simp only [hn, decide_True, if_true]
      omega
    · simp only [hn, decide_False, Bool.false_eq_true, if_false]
      omega
  simp only [Double.value, h, zpow_zero, mul_one]

/-- `Double.floor` of a finite double is a finite double, and it denotes the
floor of the number. -/
theorem Double.floor_finite (neg : Bool) (m : Nat) (e : Int) :
    ∃ n1 m1 e1, (Double.finite neg m e).floor = Double.finite n1 m1 e1 ∧
      Double.value n1 m1 e1 = ((⌊Double.value neg m e⌋ : Int) : ℚ) := by
  by_cases he : 0 ≤ e
  · refine ⟨neg, m, e, by simp only [Double.floor, if_pos he], ?_⟩
    rw [Double.value_of_nonneg neg m e he, Int.floor_intCast]
  · refine ⟨neg, (Double.signed neg m / 2 ^ (-e).toNat).natAbs, 0,
      by simp only [Double.floor, if_neg he], ?_⟩
    rw [Double.value_of_neg neg m e he, Rat.floor_intCast_div_natCast]
    have hpos : (0 : Int) < 2 ^ (-e).toNat := by positivity
    have hs : Double.signed neg (Double.signed neg m / 2 ^ (-e).toNat).natAbs
        = Double.signed neg m / 2 ^ (-e).toNat := by
      cases neg with
      | true =>
        have hq : Double.signed true m / 2 ^ (-e).toNat ≤ 0 := by
          have hm : Double.signed true m ≤ 0 := by
            simp only [Double.signed, if_true]
            omega
          rcases hm.lt_or_eq with hlt | heq
          · exact le_of_lt (Int.ediv_neg' hlt hpos)
          · rw [heq, Int.zero_ediv]
        simp only [Double.signed, if_true] at hq ⊢
        omega
      | false =>
        have hq : 0 ≤ Double.signed false m / 2 ^ (-e).toNat := by
          apply Int.ediv_nonneg _ (le_of_lt hpos)
          simp only [Double.signed, Bool.false_eq_true, if_false]
          omega
        simp only [Double.signed, Bool.false_eq_true, if_false] at hq ⊢
        omega
    simp only [Double.value, hs, zpow_zero, mul_one]
    push_cast
    rfl

/-- The cast to `uint32_t` of a finite double denoting a whole number within
the range of `uint32_t` is that number. -/
theorem Double.toUInt32_of_value (neg : Bool) (m : Nat) (e : Int) (n : Int)
    (hv : Double.value neg m e = (n : ℚ)) (h0 : 0 ≤ n) (h1 : n ≤ UINT32_MAX) :
    (Double.finite neg m e).toUInt32 = n := by
  have hmod : toUnsigned 32 n = n := by
    simp only [toUnsigned, UINT32_MAX] at *
    omega
  by_cases he : 0 ≤ e
  · rw [Double.value_of_nonneg neg m e he, Int.cast_inj] at hv
    simp only [Double.toUInt32, if_pos he, hv, hmod]
  · have hpos : (0 : Int) < 2 ^ (-e).toNat := by positivity
    have hposq : ((2 ^ (-e).toNat : Nat) : ℚ) ≠ 0 := by positivity
    rw [Double.value_of_neg neg m e he, div_eq_iff hposq] at hv
    have hs : Double.signed neg m = n * 2 ^ (-e).toNat := by
      have : ((Double.signed neg m : Int) : ℚ) = ((n * 2 ^ (-e).toNat : Int) : ℚ) := by
        rw [hv]
        push_cast
        rfl
      exact Int.cast_inj.mp this
    simp only [Double.toUInt32, if_neg he, hs, Int.mul_tdiv_cancel n (ne_of_gt hpos), hmod]

/-- What `r_dbl_as_uint32` does with a finite double, in terms of the number
`q` it denotes: a range failure when `q` is outside `[0, UINT32_MAX]`, else a
whole number failure when `q` has a fractional part, else `q` itself. -/
theorem r_dbl_as_uint32_finite (neg : Bool) (m : Nat) (e : Int) (arg : String) :
    r_dbl_as_uint32 (Double.finite neg m e) arg =
      if (UINT32_MAX : ℚ) < Double.value neg m e ∨ Double.value neg m e < 0 then
        r_abort
          "Can't convert `%s` to `uint32_t`. `%s` must be within the range of `[0, UINT32_MAX]`."
          [FmtArg.str arg, FmtArg.str arg]
      else if ((⌊Double.value neg m e⌋ : Int) : ℚ) ≠ Double.value neg m e then
        r_abort "`%s` must be a whole number." [FmtArg.str arg]
      else
        Except.ok ⌊Double.value neg m e⌋ := by
  have hgt : (Double.ofInt UINT32_MAX).lt (Double.finite neg m e) = true ↔
      (UINT32_MAX : ℚ) < Double.value neg m e := by
    unfold Double.ofInt
    rw [Double.lt_finite_iff, Double.value_ofInt]
  have hlt : (Double.finite neg m e).lt (Double.ofInt 0) = true ↔
      Double.value neg m e < 0 := by
    unfold Double.ofInt
    rw [Double.lt_finite_iff, Double.value_ofInt, Int.cast_zero]
  obtain ⟨n1, m1, e1, hfl, hval⟩ := Double.floor_finite neg m e
  have hne : (Double.finite neg m e).floor.ne (Double.finite neg m e) = true ↔
      ((⌊Double.value neg m e⌋ : Int) : ℚ) ≠ Double.value neg m e := by
    rw [hfl, Double.ne_finite_iff, hval]
  unfold r_dbl_as_uint32
  simp only [Double.isnan, Bool.false_eq_true, if_false, Bool.or_eq_true, hgt, hlt, hne]
  by_cases hr : (UINT32_MAX : ℚ) < Double.value neg m e ∨ Double.value neg m e < 0
  · simp only [if_pos hr]
  · simp only [if_neg hr]
    by_cases hw : ((⌊Double.value neg m e⌋ : Int) : ℚ) ≠ Double.value neg m e
    · simp only [if_pos hw]
    · simp only [if_neg hw]
      have hw2 : Double.value neg m e = ((⌊Double.value neg m e⌋ : Int) : ℚ) :=
        (not_not.mp hw).symm
      have hr2 := not_or.mp hr
      have h0 : (0 : Int) ≤ ⌊Double.value neg m e⌋ := Int.floor_nonneg.mpr (not_lt.mp hr2.2)
      have h1 : ⌊Double.value neg m e⌋ ≤ UINT32_MAX := by
        have : ((⌊Double.value neg m e⌋ : Int) : ℚ) ≤ (UINT32_MAX : ℚ) := by
          rw [← hw2]
          exact not_lt.mp hr2.1
        exact Int.cast_le.mp this
      rw [Double.toUInt32_of_value neg m e _ hw2 h0 h1]
      rfl

/-- A double denoting an integer within `[0, UINT32_MAX]` is converted to that
integer. -/
theorem r_dbl_as_uint32_of_toRat (d : Double) (arg : String) (n : Int)
    (hd : d.toRat = some (n : ℚ)) (h0 : 0 ≤ n) (h1 : n ≤ UINT32_MAX) :
    r_dbl_as_uint32 d arg = Except.ok n := by
  cases d with
  | nan => simp [Double.toRat] at hd
  | inf neg => simp [Double.toRat] at hd
  | finite neg m e =>
    have hv : Double.value neg m e = (n : ℚ) := by
      simpa [Double.toRat] using hd
    have hr : ¬ ((UINT32_MAX : ℚ) < Double.value neg m e ∨ Double.value neg m e < 0) := by
      rw [hv]
      intro h
      rcases h with h | h
      · exact absurd (Int.cast_lt.mp h) (not_lt.mpr h1)
      · have : (n : ℚ) < ((0 : Int) : ℚ) := by simpa using h
        exact absurd (Int.cast_lt.mp this) (not_lt.mpr h0)
    have hw : ¬ (((⌊Double.value neg m e⌋ : Int) : ℚ) ≠ Double.value neg m e) := by
      rw [hv, Int.floor_intCast]
      exact not_not.mpr rfl
    rw [r_dbl_as_uint32_finite, if_neg hr, if_neg hw, hv, Int.floor_intCast]

/-- C6: a finite double denoting a whole number `n` with `0 <= n <= UINT32_MAX`
(negative zero and 4294967295.0 included) is converted to `n`. -/
theorem r_dbl_as_uint32_whole (d : Double) (arg : String) (n : Int)
    (hd : d.toRat = some (n : ℚ)) (h0 : 0 ≤ n) (h1 : n ≤ UINT32_MAX) :
    r_dbl_as_uint32 d arg = Except.ok n :=
  r_dbl_as_uint32_of_toRat d arg n hd h0 h1

/-- Witness of C6: negative zero gives 0 and 4294967295.0 gives 4294967295. -/
theorem r_dbl_as_uint32_whole_witness :
    r_dbl_as_uint32 (Double.finite true 0 0) "n" = Except.ok 0 ∧
      r_dbl_as_uint32 (Double.finite false 4294967295 0) "n" = Except.ok 4294967295 :=
  ⟨r_dbl_as_uint32_whole (Double.finite true 0 0) "n" 0
      (by simp [Double.toRat, Double.value, Double.signed]) (by decide) (by decide),
    r_dbl_as_uint32_whole (Double.finite false 4294967295 0) "n" 4294967295
      (by simp [Double.toRat, Double.value, Double.signed]) (by decide) (by decide)⟩

/-- C7: the failures of `r_dbl_as_uint32`, in the order the checks are made.
NaN is a missing value failure; an infinity, and a finite double denoting a
number below 0 or above `UINT32_MAX` (whole or not), is a range failure; a
finite double within `[0, UINT32_MAX]` with a fractional part is a whole number
failure; every other double is converted. -/
theorem r_dbl_as_uint32_failures (arg : String) :
    failsWith (r_dbl_as_uint32 Double.nan arg) ErrorKind.MissingValueError ∧
      (∀ neg, failsWith (r_dbl_as_uint32 (Double.inf neg) arg) ErrorKind.RangeError) ∧
      (∀ d q, d.toRat = some q → (q < 0 ∨ (UINT32_MAX : ℚ) < q) →
        failsWith (r_dbl_as_uint32 d arg) ErrorKind.RangeError) ∧
      (∀ d q, d.toRat = some q → 0 ≤ q → q ≤ (UINT32_MAX : ℚ) → ((⌊q⌋ : Int) : ℚ) ≠ q →
        failsWith (r_dbl_as_uint32 d arg) ErrorKind.NotWholeNumberError) ∧
      (∀ d q, d.toRat = some q → 0 ≤ q → q ≤ (UINT32_MAX : ℚ) → ((⌊q⌋ : Int) : ℚ) = q →
        r_dbl_as_uint32 d arg = Except.ok ⌊q⌋) := by
  refine ⟨?_, ?_, ?_, ?_, ?_⟩
  · exact (failsWith_r_abort "`%s` can't be missing" [FmtArg.str arg] _).mpr (by decide)
  · intro neg
    have hr : r_dbl_as_uint32 (Double.inf neg) arg =
        r_abort
          "Can't convert `%s` to `uint32_t`. `%s` must be within the range of `[0, UINT32_MAX]`."
          [FmtArg.str arg, FmtArg.str arg] := by
      cases neg <;> rfl
    rw [hr]
    exact (failsWith_r_abort _ _ _).mpr (by decide)
  · intro d q hd hq
    cases d with
    | nan => simp [Double.toRat] at hd
    | inf neg => simp [Double.toRat] at hd
    | finite neg m e =>
      have hv : Double.value neg m e = q := by simpa [Double.toRat] using hd
      have hr : (UINT32_MAX : ℚ) < Double.value neg m e ∨ Double.value neg m e < 0 := by
        rw [hv]
        exact hq.symm
      rw [r_dbl_as_uint32_finite, if_pos hr]
      exact (failsWith_r_abort _ _ _).mpr (by decide)
  · intro d q hd h0 h1 hw
    cases d with
    | nan => simp [Double.toRat] at hd
    | inf neg => simp [Double.toRat] at hd
    | finite neg m e =>
      have hv : Double.value neg m e = q := by simpa [Double.toRat] using hd
      have hr : ¬ ((UINT32_MAX : ℚ) < Double.value neg m e ∨ Double.value neg m e < 0) := by
        rw [hv]
        exact not_or.mpr ⟨not_lt.mpr h1, not_lt.mpr h0⟩
      rw [r_dbl_as_uint32_finite, if_neg hr, hv, if_pos hw]
      exact (failsWith_r_abort _ _ _).mpr (by decide)
  · intro d q hd h0 h1 hw
    cases d with
    | nan => simp [Double.toRat] at hd
    | inf neg => simp [Double.toRat] at hd
    | finite neg m e =>
      have hv : Double.value neg m e = q := by simpa [Double.toRat] using hd
      have hr : ¬ ((UINT32_MAX : ℚ) < Double.value neg m e ∨ Double.value neg m e < 0) := by
        rw [hv]
        exact not_or.mpr ⟨not_lt.mpr h1, not_lt.mpr h0⟩
      rw [r_dbl_as_uint32_finite, if_neg hr, hv, if_neg (not_not.mpr hw)]

/-- Witness of C7: -0.5 and 4294967295.5 are range failures although they have
a fractional part, and 3.5 is a whole number failure. -/
theorem r_dbl_as_uint32_failures_witness :
    failsWith (r_dbl_as_uint32 (Double.finite true 1 (-1)) "n") ErrorKind.RangeError ∧
      failsWith (r_dbl_as_uint32 (Double.finite false 8589934591 (-1)) "n")
        ErrorKind.RangeError ∧
      failsWith (r_dbl_as_uint32 (Double.finite false 7 (-1)) "n")
        ErrorKind.NotWholeNumberError :=
  ⟨(r_dbl_as_uint32_failures "n").2.2.1 (Double.finite true 1 (-1)) (-1 / 2)
      (by simp [Double.toRat, Double.value, Double.signed]; norm_num)
      (Or.inl (by norm_num)),
    (r_dbl_as_uint32_failures "n").2.2.1 (Double.finite false 8589934591 (-1))
      (8589934591 / 2)
      (by simp [Double.toRat, Double.value, Double.signed]; norm_num)
      (Or.inr (by norm_num [UINT32_MAX])),
    (r_dbl_as_uint32_failures "n").2.2.2.1 (Double.finite false 7 (-1)) (7 / 2)
      (by simp [Double.toRat, Double.value, Double.signed]; norm_num)
      (by norm_num) (by norm_num [UINT32_MAX])
      (by
        have hf : ⌊(7 / 2 : ℚ)⌋ = 3 := by
          rw [Int.floor_eq_iff]
          constructor <;> norm_num
        rw [hf]
        norm_num)⟩

/-- C8: for every `uint32_t` value `x`, `r_uint32_as_dbl x` is a binary64
double denoting exactly `x`, and `r_dbl_as_uint32` converts it back to `x`. -/
theorem r_uint32_dbl_roundtrip (x : Int) (arg : String) (hx : IsUnsigned 32 x) :
    (r_uint32_as_dbl x).isBinary64 ∧
      (r_uint32_as_dbl x).toRat = some (x : ℚ) ∧
      r_dbl_as_uint32 (r_uint32_as_dbl x) arg = Except.ok x := by
  have hval : (r_uint32_as_dbl x).toRat = some (x : ℚ) := by
    simp only [r_uint32_as_dbl, Double.ofInt, Double.toRat, Double.value_ofInt]
  have hmax : x ≤ UINT32_MAX := by
    simp only [IsUnsigned, UINT32_MAX] at *
    omega
  refine ⟨?_, hval, r_dbl_as_uint32_of_toRat _ arg x hval hx.1 hmax⟩
  simp only [r_uint32_as_dbl, Double.ofInt, Double.isBinary64, IsUnsigned] at *
  omega

/-- Witness of C8 at the largest `uint32_t`. -/
theorem r_uint32_dbl_roundtrip_witness :
    IsUnsigned 32 4294967295 ∧
      r_dbl_as_uint32 (r_uint32_as_dbl 4294967295) "n" = Except.ok 4294967295 :=
  ⟨by decide, (r_uint32_dbl_roundtrip 4294967295 "n" (by decide)).2.2⟩

/-- The three identifier conversions make the same check. -/
theorem int_as_id_check (v : Int) :
    (v > toSigned 32 UINT16_MAX ∨ v < 0) ↔ (v < 0 ∨ v > 65535) := by
  simp only [toSigned, UINT16_MAX]
  omega

/-- C9: each of `r_int_as_TSSymbol`, `r_int_as_TSFieldId` and
`r_int_as_TSStateId` fails with a range error exactly when `v < 0` or
`v > 65535`, and succeeds for every `v` within `[0, 65535]`. -/
theorem r_int_as_id_fails_iff (v : Int) (arg : String) :
    ((failsWith (r_int_as_TSSymbol v arg) ErrorKind.RangeError ↔ (v < 0 ∨ v > 65535)) ∧
      (failsWith (r_int_as_TSFieldId v arg) ErrorKind.RangeError ↔ (v < 0 ∨ v > 65535)) ∧
      (failsWith (r_int_as_TSStateId v arg) ErrorKind.RangeError ↔ (v < 0 ∨ v > 65535))) ∧
    ((0 ≤ v ∧ v ≤ 65535) →
      r_int_as_TSSymbol v arg = Except.ok v ∧
      r_int_as_TSFieldId v arg = Except.ok v ∧
      r_int_as_TSStateId v arg = Except.ok v) := by
  have hc := int_as_id_check v
  by_cases h : v < 0 ∨ v > 65535
  · have h2 := hc.mpr h
    refine ⟨⟨?_, ?_, ?_⟩, fun hin => by omega⟩
    · simp only [r_int_as_TSSymbol, if_pos h2, h, iff_true]
      exact (failsWith_r_abort _ _ _).mpr (by decide)
    · simp only [r_int_as_TSFieldId, if_pos h2, h, iff_true]
      exact (failsWith_r_abort _ _ _).mpr (by decide)
    · simp only [r_int_as_TSStateId, if_pos h2, h, iff_true]
      exact (failsWith_r_abort _ _ _).mpr (by decide)
  · have h2 : ¬ (v > toSigned 32 UINT16_MAX ∨ v < 0) := fun hh => h (hc.mp hh)
    have hval : toUnsigned 16 v = v := by
      simp only [toUnsigned]
      omega
    refine ⟨⟨?_, ?_, ?_⟩, fun _ => ⟨?_, ?_, ?_⟩⟩
    · simp only [r_int_as_TSSymbol, if_neg h2, pure, Except.pure, failsWith, h]
    · simp only [r_int_as_TSFieldId, if_neg h2, pure, Except.pure, failsWith, h]
    · simp only [r_int_as_TSStateId, if_neg h2, pure, Except.pure, failsWith, h]
    · simp only [r_int_as_TSSymbol, if_neg h2, pure, Except.pure, hval]
    · simp only [r_int_as_TSFieldId, if_neg h2, pure, Except.pure, hval]
    · simp only [r_int_as_TSStateId, if_neg h2, pure, Except.pure, hval]

/-- Witness of C9: -1 and 65536 are range failures for a symbol, and 65535
is converted. -/
theorem r_int_as_id_fails_iff_witness :
    failsWith (r_int_as_TSSymbol (-1) "n") ErrorKind.RangeError ∧
      failsWith (r_int_as_TSSymbol 65536 "n") ErrorKind.RangeError ∧
      r_int_as_TSSymbol 65535 "n" = Except.ok 65535 :=
  ⟨(r_int_as_id_fails_iff (-1) "n").1.1.mpr (by decide),
    (r_int_as_id_fails_iff 65536 "n").1.1.mpr (by decide),
    ((r_int_as_id_fails_iff 65535 "n").2 (by decide)).1⟩

/-- C10: for each identifier kind and every `v` with `0 <= v <= 65535`, the
widening function applied to the narrowed value gives `v` back, and the
widening function itself returns `v` unchanged. -/
theorem r_int_id_roundtrip (v : Int) (arg : String) (h0 : 0 ≤ v) (h1 : v ≤ 65535) :
    (Except.map r_TSSymbol_as_int (r_int_as_TSSymbol v arg) = Except.ok v ∧
      Except.map r_TSFieldId_as_int (r_int_as_TSFieldId v arg) = Except.ok v ∧
      Except.map r_TSStateId_as_int (r_int_as_TSStateId v arg) = Except.ok v) ∧
    (r_TSSymbol_as_int v = v ∧ r_TSFieldId_as_int v = v ∧ r_TSStateId_as_int v = v) := by
  have h2 : ¬ (v > toSigned 32 UINT16_MAX ∨ v < 0) := by
    rw [int_as_id_check]
    omega
  have hval : toUnsigned 16 v = v := by
    simp only [toUnsigned]
    omega
  have hback : toSigned 32 v = v := by
    simp only [toSigned]
    omega
  refine ⟨⟨?_, ?_, ?_⟩, hback, hback, hback⟩
  · simp only [r_int_as_TSSymbol, if_neg h2, pure, Except.pure, Except.map, hval,
      r_TSSymbol_as_int, hback]
  · simp only [r_int_as_TSFieldId, if_neg h2, pure, Except.pure, Except.map, hval,
      r_TSFieldId_as_int, hback]
  · simp only [r_int_as_TSStateId, if_neg h2, pure, Except.pure, Except.map, hval,
      r_TSStateId_as_int, hback]

/-- Witness of C10 at the largest identifier. -/
theorem r_int_id_roundtrip_witness :
    Except.map r_TSSymbol_as_int (r_int_as_TSSymbol 65535 "n") = Except.ok 65535 ∧
      Except.map r_TSFieldId_as_int (r_int_as_TSFieldId 65535 "n") = Except.ok 65535 ∧
      Except.map r_TSStateId_as_int (r_int_as_TSStateId 65535 "n") = Except.ok 65535 :=
  (r_int_id_roundtrip 65535 "n" (by decide) (by decide)).1

/-- C11: for every `uint32_t` value `x`, `r_uint32_as_int x arg` fails with a
range error exactly when `x > INT_MAX`, it returns `x` itself otherwise (so a
non-negative `int`), and the `x < 0` half of its check never holds. -/
theorem r_uint32_as_int_fails_iff (x : Int) (arg : String) (hx : IsUnsigned 32 x) :
    (failsWith (r_uint32_as_int x arg) ErrorKind.RangeError ↔ x > INT_MAX) ∧
      (¬ x > INT_MAX → r_uint32_as_int x arg = Except.ok x ∧ 0 ≤ x) ∧
      ¬ (x < toUnsigned 32 0) := by
  have hz : ¬ (x < toUnsigned 32 0) := by
    simp only [toUnsigned, IsUnsigned] at *
    omega
  have hc : (x > toUnsigned 32 INT_MAX ∨ x < toUnsigned 32 0) ↔ x > INT_MAX := by
    simp only [toUnsigned, INT_MAX, IsUnsigned] at *
    omega
  refine ⟨?_, ?_, hz⟩
  · by_cases h : x > INT_MAX
    · simp only [r_uint32_as_int, if_pos (hc.mpr h), h, iff_true]
      exact (failsWith_r_abort _ _ _).mpr (by decide)
    · have h2 : ¬ (x > toUnsigned 32 INT_MAX ∨ x < toUnsigned 32 0) := fun hh => h (hc.mp hh)
      simp only [r_uint32_as_int, if_neg h2, pure, Except.pure, failsWith, h]
  · intro h
    have h2 : ¬ (x > toUnsigned 32 INT_MAX ∨ x < toUnsigned 32 0) := fun hh => h (hc.mp hh)
    have hval : toSigned 32 x = x := by
      simp only [toSigned, INT_MAX, IsUnsigned] at *
      omega
    exact ⟨by simp only [r_uint32_as_int, if_neg h2, pure, Except.pure, hval], hx.1⟩

/-- Witness of C11: `INT_MAX` is converted, `INT_MAX + 1` is a range failure. -/
theorem r_uint32_as_int_fails_iff_witness :
    r_uint32_as_int 2147483647 "n" = Except.ok 2147483647 ∧
      failsWith (r_uint32_as_int 2147483648 "n") ErrorKind.RangeError :=
  ⟨((r_uint32_as_int_fails_iff 2147483647 "n" (by decide)).2.1 (by decide)).1,
    (r_uint32_as_int_fails_iff 2147483648 "n" (by decide)).1.mpr (by decide)⟩

/-- C12 at its failing input: with a 32-bit index type the `uint32_t` value
2147483648 comes out of `r_uint32_as_r_ssize` as the negative index
-2147483648, while the sibling `r_uint32_as_int`, whose target is the same
32-bit `int`, rejects that value with a range error. -/
theorem r_uint32_as_r_ssize_wraps_on_32_bit :
    r_uint32_as_r_ssize 32 2147483648 = -2147483648 ∧
      failsWith (r_uint32_as_int 2147483648 "x") ErrorKind.RangeError := by
  constructor
  · decide
  · decide

/-! ### Missing value scans -/

/-- The scan loop returns true exactly when one of the `n` elements from
index `i` on is the missing value. -/
theorem anyMissingFrom_iff {α : Type} [DecidableEq α] (v_x : Nat → α) (na : α) (n : Nat) :
    ∀ i : Nat, anyMissingFrom v_x na i n = true ↔ ∃ k, k < n ∧ v_x (i + k) = na := by
  induction n with
  | zero =>
    intro i
    simp [anyMissingFrom]
  | succ n ih =>
    intro i
    unfold anyMissingFrom
    by_cases h : v_x i = na
    · rw [if_pos h]
      exact ⟨fun _ => ⟨0, Nat.succ_pos n, h⟩, fun _ => rfl⟩
    · rw [if_neg h, ih (i + 1)]
      constructor
      · rintro ⟨k, hk, hv⟩
        exact ⟨k + 1, by omega, by rwa [show i + (k + 1) = i + 1 + k by omega]⟩
      · rintro ⟨k, hk, hv⟩
        cases k with
        | zero => exact absurd hv h
        | succ k => exact ⟨k, by omega, by rwa [show i + 1 + k = i + (k + 1) by omega]⟩

/-- The scan loop run over all the elements of a list finds the missing value
exactly when it is a member of the list. -/
theorem anyMissingFrom_list {α : Type} [DecidableEq α] (xs : List α) (d na : α) :
    anyMissingFrom (fun i => xs.getD i d) na 0 xs.length = true ↔ na ∈ xs := by
  rw [anyMissingFrom_iff]
  constructor
  · rintro ⟨k, hk, hv⟩
    rw [Nat.zero_add, List.getD_eq_getElem xs d hk] at hv
    rw [← hv]
    exact List.getElem_mem hk
  · intro h
    obtain ⟨k, hk, hv⟩ := List.getElem_of_mem h
    exact ⟨k, hk, by rw [Nat.zero_add, List.getD_eq_getElem xs d hk, hv]⟩

/-- The boolean scan of a boolean sequence. -/
theorem r_lgl_any_missing_iff (g : Globals) (xs : List Int) :
    r_lgl_any_missing g (RObj.lgl xs) = true ↔ g.na_lgl ∈ xs := by
  simp only [r_lgl_any_missing, r_length, r_lgl_cbegin, Int.toNat_ofNat]
  exact anyMissingFrom_list xs 0 g.na_lgl

/-- The integer scan of an integer sequence. -/
theorem r_int_any_missing_iff (g : Globals) (xs : List Int) :
    r_int_any_missing g (RObj.int xs) = true ↔ g.na_int ∈ xs := by
  simp only [r_int_any_missing, r_length, r_int_cbegin, Int.toNat_ofNat]
  exact anyMissingFrom_list xs 0 g.na_int

/-- The text scan of a text sequence. -/
theorem r_chr_any_missing_iff (g : Globals) (xs : List Nat) :
    r_chr_any_missing g (RObj.chr xs) = true ↔ g.na_str ∈ xs := by
  simp only [r_chr_any_missing, r_length, r_chr_cbegin, Int.toNat_ofNat]
  exact anyMissingFrom_list xs 0 g.na_str

/-- C13: each of the three scans returns true if and only if an element of
the sequence is the missing value of its kind; in particular the scan of the
empty sequence is false, that of `[true, NA, false]` is true, and that of
`[1, 2, 3]` is false when the missing integer is none of 1, 2, 3. -/
theorem any_missing_scans_iff (g : Globals) :
    ((∀ xs, r_lgl_any_missing g (RObj.lgl xs) = true ↔ g.na_lgl ∈ xs) ∧
      (∀ xs, r_int_any_missing g (RObj.int xs) = true ↔ g.na_int ∈ xs) ∧
      (∀ xs, r_chr_any_missing g (RObj.chr xs) = true ↔ g.na_str ∈ xs)) ∧
    (r_lgl_any_missing g (RObj.lgl []) = false ∧
      r_int_any_missing g (RObj.int []) = false ∧
      r_chr_any_missing g (RObj.chr []) = false) ∧
    r_lgl_any_missing g (RObj.lgl [1, g.na_lgl, 0]) = true ∧
    (g.na_int ∉ [1, 2, 3] → r_int_any_missing g (RObj.int [1, 2, 3]) = false) := by
  refine ⟨⟨r_lgl_any_missing_iff g, r_int_any_missing_iff g, r_chr_any_missing_iff g⟩,
    ⟨rfl, rfl, rfl⟩, ?_, ?_⟩
  · rw [r_lgl_any_missing_iff]
    simp
  · intro h
    rw [← Bool.not_eq_true, r_int_any_missing_iff]
    exact h

/-- Witness of C13 with the missing values of R, where the missing boolean
and the missing integer are both the smallest `int`. -/
theorem any_missing_scans_iff_witness :
    r_lgl_any_missing ⟨-2147483648, -2147483648, 0⟩ (RObj.lgl [1, -2147483648, 0]) = true ∧
      r_int_any_missing ⟨-2147483648, -2147483648, 0⟩ (RObj.int [1, 2, 3]) = false :=
  ⟨(any_missing_scans_iff ⟨-2147483648, -2147483648, 0⟩).2.2.1,
    (any_missing_scans_iff ⟨-2147483648, -2147483648, 0⟩).2.2.2 (by decide)⟩

/-! ### Argument shape validation -/

/-- The three outcomes of `r_arg_as_string`, by the kind and length of `x`. -/
theorem r_arg_as_string_cases (x : RObj) (arg : String) :
    (r_typeof x ≠ RType.R_TYPE_character →
      r_arg_as_string x arg = r_abort "%s must be a string." [FmtArg.str arg]) ∧
    (r_typeof x = RType.R_TYPE_character → r_length x ≠ 1 →
      r_arg_as_string x arg = r_abort "%s must be length 1, not length %i."
        [FmtArg.str arg, FmtArg.int (toSigned 32 (r_length x))]) ∧
    (r_typeof x = RType.R_TYPE_character → r_length x = 1 →
      r_arg_as_string x arg = Except.ok (r_chr_get x 0)) := by
  refine ⟨fun h => ?_, fun h hl => ?_, fun h hl => ?_⟩
  · simp only [r_arg_as_string, if_pos h]
  · simp only [r_arg_as_string, h, ne_eq, not_true_eq_false, if_false, hl, not_false_eq_true,
      if_true]
  · simp only [r_arg_as_string, h, ne_eq, not_true_eq_false, if_false, hl, pure, Except.pure]

/-- C14: `r_arg_as_string x arg` succeeds if and only if `x` is of text kind
and has exactly one element, and then returns element 0; otherwise it fails
with a shape error, a value that is not text being reported as not being a
string whatever its length. -/
theorem r_arg_as_string_ok_iff (x : RObj) (arg : String) :
    ((∃ s, r_arg_as_string x arg = Except.ok s) ↔
      (r_typeof x = RType.R_TYPE_character ∧ r_length x = 1)) ∧
    (∀ s, r_arg_as_string x arg = Except.ok s → s = r_chr_get x 0) ∧
    (¬ (r_typeof x = RType.R_TYPE_character ∧ r_length x = 1) →
      failsWith (r_arg_as_string x arg) ErrorKind.ShapeError) ∧
    (r_typeof x ≠ RType.R_TYPE_character →
      r_arg_as_string x arg = r_abort "%s must be a string." [FmtArg.str arg]) := by
  obtain ⟨h1, h2, h3⟩ := r_arg_as_string_cases x arg
  by_cases ht : r_typeof x = RType.R_TYPE_character
  · by_cases hl : r_length x = 1
    · have hok := h3 ht hl
      refine ⟨⟨fun _ => ⟨ht, hl⟩, fun _ => ⟨_, hok⟩⟩, fun s hs => ?_, fun hn => ?_, fun hn => ?_⟩
      · rw [hok] at hs
        exact (Except.ok.inj hs).symm
      · exact absurd ⟨ht, hl⟩ hn
      · exact absurd ht hn
    · have herr := h2 ht hl
      refine ⟨⟨fun hs => ?_, fun hc => absurd hc.2 hl⟩, fun s hs => ?_, fun _ => ?_,
        fun hn => absurd ht hn⟩
      · obtain ⟨s, hs⟩ := hs
        rw [herr] at hs
        exact absurd hs (by simp [r_abort])
      · rw [herr] at hs
        exact absurd hs (by simp [r_abort])
      · rw [herr]
        exact (failsWith_r_abort _ _ _).mpr (by decide)
  · have herr := h1 ht
    refine ⟨⟨fun hs => ?_, fun hc => absurd hc.1 ht⟩, fun s hs => ?_, fun _ => ?_, fun _ => herr⟩
    · obtain ⟨s, hs⟩ := hs
      rw [herr] at hs
      exact absurd hs (by simp [r_abort])
    · rw [herr] at hs
      exact absurd hs (by simp [r_abort])
    · rw [herr]
      exact (failsWith_r_abort _ _ _).mpr (by decide)

/-- Witness of C14: a text value of one element gives that element, one of
two elements and an integer of one element are shape failures. -/
theorem r_arg_as_string_ok_iff_witness :
    r_arg_as_string (RObj.chr [7]) "n" = Except.ok 7 ∧
      failsWith (r_arg_as_string (RObj.chr [7, 8]) "n") ErrorKind.ShapeError ∧
      failsWith (r_arg_as_string (RObj.int [7]) "n") ErrorKind.ShapeError := by
  refine ⟨?_, ?_, ?_⟩
  · obtain ⟨s, hs⟩ := (r_arg_as_string_ok_iff (RObj.chr [7]) "n").1.mpr (by decide)
    rw [hs, (r_arg_as_string_ok_iff (RObj.chr [7]) "n").2.1 s hs]
    rfl
  · exact (r_arg_as_string_ok_iff (RObj.chr [7, 8]) "n").2.2.1 (by decide)
  · exact (r_arg_as_string_ok_iff (RObj.int [7]) "n").2.2.1 (by decide)

/-! ### Reads of the sized comparison -/

/-- The result of `strncmp` is the same on buffers that agree on the `n` bytes
from offset `i` on. -/
theorem strncmpFrom_congr (s1 s2 t1 t2 : CharPtr) (n : Nat) : ∀ i : Nat,
    (∀ k, k < n → s1 (i + k) = t1 (i + k)) → (∀ k, k < n → s2 (i + k) = t2 (i + k)) →
      strncmpFrom s1 s2 i n = strncmpFrom t1 t2 i n := by
  induction n with
  | zero =>
    intro i _ _
    rfl
  | succ n ih =>
    intro i h1 h2
    have e1 : s1 i = t1 i := h1 0 (Nat.succ_pos n)
    have e2 : s2 i = t2 i := h2 0 (Nat.succ_pos n)
    have hrec : strncmpFrom s1 s2 (i + 1) n = strncmpFrom t1 t2 (i + 1) n := by
      apply ih (i + 1)
      · intro k hk
        have := h1 (k + 1) (by omega)
        rwa [show i + (k + 1) = i + 1 + k by omega] at this
      · intro k hk
        have := h2 (k + 1) (by omega)
        rwa [show i + (k + 1) = i + 1 + k by omega] at this
    unfold strncmpFrom
    rw [e1, e2, hrec]

/-- The traced `strncmp` computes the result of `strncmp`. -/
theorem strncmpFromTraced_fst (s1 s2 : CharPtr) (n : Nat) : ∀ i : Nat,
    (strncmpFromTraced s1 s2 i n).1 = strncmpFrom s1 s2 i n := by
  induction n with
  | zero =>
    intro i
    rfl
  | succ n ih =>
    intro i
    unfold strncmpFromTraced strncmpFrom
    by_cases hne : s1 i ≠ s2 i
    · simp only [if_pos hne]
    · simp only [if_neg hne]
      by_cases hz : s1 i = 0
      · simp only [if_pos hz]
      · simp only [if_neg hz, ih (i + 1)]

/-- Every offset `strncmp(s1 + i, s2 + i, n)` reads lies in `[i, i + n)`. -/
theorem strncmpFromTraced_snd (s1 s2 : CharPtr) (n : Nat) : ∀ i j : Nat,
    j ∈ (strncmpFromTraced s1 s2 i n).2 → i ≤ j ∧ j < i + n := by
  induction n with
  | zero =>
    intro i j hj
    simp [strncmpFromTraced] at hj
  | succ n ih =>
    intro i j hj
    unfold strncmpFromTraced at hj
    by_cases hne : s1 i ≠ s2 i
    · simp only [if_pos hne, List.mem_singleton] at hj
      omega
    · simp only [if_neg hne] at hj
      by_cases hz : s1 i = 0
      · simp only [if_pos hz, List.mem_singleton] at hj
        omega
      · simp only [if_neg hz, List.mem_cons] at hj
        rcases hj with hj | hj
        · omega
        · have := ih (i + 1) j hj
          omega

/-- C15: `str_equal_sized` gives the same result on any two pairs of buffers
that agree on the first `x_size` bytes of `x` and the first `y_size` bytes of
`y`, whatever lies beyond, and every offset it reads in `x` and `y` is below
both declared lengths. -/
theorem str_equal_sized_reads_within (x y t u : CharPtr) (x_size y_size : Nat)
    (hx : ∀ i, i < x_size → x i = t i) (hy : ∀ i, i < y_size → y i = u i) :
    str_equal_sized x y x_size y_size = str_equal_sized t u x_size y_size ∧
      (str_equal_sized_traced x y x_size y_size).1 = str_equal_sized x y x_size y_size ∧
      ∀ j, j ∈ (str_equal_sized_traced x y x_size y_size).2 → j < x_size ∧ j < y_size := by
  by_cases hs : x_size = y_size
  · subst hs
    have hc : strncmpFrom x y 0 x_size = strncmpFrom t u 0 x_size :=
      strncmpFrom_congr x y t u x_size 0
        (fun k hk => by rw [Nat.zero_add]; exact hx k hk)
        (fun k hk => by rw [Nat.zero_add]; exact hy k hk)
    refine ⟨?_, ?_, ?_⟩
    · simp only [str_equal_sized, ne_eq, not_true_eq_false, if_false, strncmp, hc]
    · simp only [str_equal_sized_traced, str_equal_sized, ne_eq, not_true_eq_false, if_false,
        strncmp, strncmpFromTraced_fst]
    · intro j hj
      simp only [str_equal_sized_traced, ne_eq, not_true_eq_false, if_false] at hj
      have := strncmpFromTraced_snd x y x_size 0 j hj
      omega
  · refine ⟨?_, ?_, ?_⟩
    · simp only [str_equal_sized, ne_eq, hs, not_false_eq_true, if_true]
    · simp only [str_equal_sized_traced, str_equal_sized, ne_eq, hs, not_false_eq_true, if_true]
    · intro j hj
      simp [str_equal_sized_traced, hs] at hj

/-- Witness of C15: the three byte view `foo` of the memory `foobar` compares
with `foo` as the nul terminated `foo` does. -/
theorem str_equal_sized_reads_within_witness :
    str_equal_sized (cstr [102, 111, 111, 98, 97, 114]) (cstr [102, 111, 111]) 3 3 =
      str_equal_sized (cstr [102, 111, 111]) (cstr [102, 111, 111]) 3 3 :=
  (str_equal_sized_reads_within (cstr [102, 111, 111, 98, 97, 114]) (cstr [102, 111, 111])
    (cstr [102, 111, 111]) (cstr [102, 111, 111]) 3 3 (by decide) (by decide)).1

/-! ### What the failures of the conversions carry -/

/-- The kind of an abort does not depend on its arguments. -/
theorem Abort.kind_mk (fmt : String) (args : List FmtArg) :
    Abort.kind { fmt := fmt, args := args } = Abort.kind { fmt := fmt, args := [] } :=
  rfl

/-- Whether a text is part of the message does not depend on the arguments
of the abort. -/
theorem Abort.statesBound_mk (fmt : String) (args : List FmtArg) (bound : String) :
    Abort.statesBound { fmt := fmt, args := args } bound ↔
      Abort.statesBound { fmt := fmt, args := [] } bound :=
  Iff.rfl

/-- C16, as stated, fails: the failure of `r_ssize_as_uint32`, here at -1,
carries no argument name at all; the function is not given one and its message
has the fixed name `x`. -/
theorem r_ssize_as_uint32_failure_names_no_arg :
    ¬ ∃ a name, r_ssize_as_uint32 (-1) = Except.error a ∧ a.namesArg name := by
  rintro ⟨a, name, h, hn⟩
  have ha : a = Abort.mk
      "Can't convert `x` to `uint32_t`. `x` must be within the range of `[0, UINT32_MAX]`."
      [] := by
    have h2 : r_ssize_as_uint32 (-1) = Except.error (Abort.mk
        "Can't convert `x` to `uint32_t`. `x` must be within the range of `[0, UINT32_MAX]`."
        []) := rfl
    rw [h2] at h
    exact (Except.error.inj h).symm
  rw [ha] at hn
  simp [Abort.namesArg] at hn

set_option maxRecDepth 100000 in
/-- C16, amended: every failure of `r_dbl_as_uint32`, `r_int_as_TSSymbol`,
`r_int_as_TSFieldId`, `r_int_as_TSStateId` and `r_uint32_as_int` carries the
argument name the caller gave, and every range failure among them states the
bound violated in its message (`[0, UINT32_MAX]`, `[0, UINT16_MAX]`,
`[0, INT_MAX]`); the failure of `r_ssize_as_uint32`, which is given no name,
carries no argument and states the bound `[0, UINT32_MAX]`. -/
theorem conversion_failures_carry (arg : String) (a : Abort) :
    (∀ d, r_dbl_as_uint32 d arg = Except.error a →
      a.namesArg arg ∧ (a.kind = some ErrorKind.RangeError → a.statesBound "[0, UINT32_MAX]")) ∧
    (∀ v, r_int_as_TSSymbol v arg = Except.error a →
      a.namesArg arg ∧ a.statesBound "[0, UINT16_MAX]") ∧
    (∀ v, r_int_as_TSFieldId v arg = Except.error a →
      a.namesArg arg ∧ a.statesBound "[0, UINT16_MAX]") ∧
    (∀ v, r_int_as_TSStateId v arg = Except.error a →
      a.namesArg arg ∧ a.statesBound "[0, UINT16_MAX]") ∧
    (∀ x, r_uint32_as_int x arg = Except.error a →
      a.namesArg arg ∧ a.statesBound "[0, INT_MAX]") ∧
    (∀ v, r_ssize_as_uint32 v = Except.error a →
      a.args = [] ∧ a.statesBound "[0, UINT32_MAX]") := by
  refine ⟨?_, ?_, ?_, ?_, ?_, ?_⟩
  · intro d h
    unfold r_dbl_as_uint32 at h
    split at h
    · obtain rfl := Except.error.inj h
      refine ⟨List.mem_cons_self _ _, fun hk => ?_⟩
      rw [Abort.kind_mk] at hk
      exact absurd hk (by decide)
    · split at h
      · obtain rfl := Except.error.inj h
        exact ⟨List.mem_cons_self _ _, fun _ => (Abort.statesBound_mk _ _ _).mpr (by decide)⟩
      · split at h
        · obtain rfl := Except.error.inj h
          refine ⟨List.mem_cons_self _ _, fun hk => ?_⟩
          rw [Abort.kind_mk] at hk
          exact absurd hk (by decide)
        · exact absurd h (by simp [pure, Except.pure])
  · intro v h
    unfold r_int_as_TSSymbol at h
    split at h
    · obtain rfl := Except.error.inj h
      exact ⟨List.mem_cons_self _ _, (Abort.statesBound_mk _ _ _).mpr (by decide)⟩
    · exact absurd h (by simp [pure, Except.pure])
  · intro v h
    unfold r_int_as_TSFieldId at h
    split at h
    · obtain rfl := Except.error.inj h
      exact ⟨List.mem_cons_self _ _, (Abort.statesBound_mk _ _ _).mpr (by decide)⟩
    · exact absurd h (by simp [pure, Except.pure])
  · intro v h
    unfold r_int_as_TSStateId at h
    split at h
    · obtain rfl := Except.error.inj h
      exact ⟨List.mem_cons_self _ _, (Abort.statesBound_mk _ _ _).mpr (by decide)⟩
    · exact absurd h (by simp [pure, Except.pure])
  · intro x h
    unfold r_uint32_as_int at h
    split at h
    · obtain rfl := Except.error.inj h
      exact ⟨List.mem_cons_self _ _, (Abort.statesBound_mk _ _ _).mpr (by decide)⟩
    · exact absurd h (by simp [pure, Except.pure])
  · intro v h
    unfold r_ssize_as_uint32 at h
    split at h
    · obtain rfl := Except.error.inj h
      exact ⟨rfl, by decide⟩
    · exact absurd h (by simp [pure, Except.pure])

set_option maxRecDepth 100000 in
/-- Witness of the amended C16: the failure of `r_int_as_TSSymbol 65536 "n"`
carries the name `n` and states `[0, UINT16_MAX]`. -/
theorem conversion_failures_carry_witness :
    Abort.namesArg
        (Abort.mk
          "Can't convert `%s` to `TSSymbol`. `%s` must be within the range of `[0, UINT16_MAX]`."
          [FmtArg.str "n", FmtArg.str "n"]) "n" ∧
      Abort.statesBound
        (Abort.mk
          "Can't convert `%s` to `TSSymbol`. `%s` must be within the range of `[0, UINT16_MAX]`."
          [FmtArg.str "n", FmtArg.str "n"]) "[0, UINT16_MAX]" :=
  (conversion_failures_carry "n"
    (Abort.mk
      "Can't convert `%s` to `TSSymbol`. `%s` must be within the range of `[0, UINT16_MAX]`."
      [FmtArg.str "n", FmtArg.str "n"])).2.1 65536 rfl

/-- C17 at its failing inputs: for a text value of 2147483648 elements the
message of `r_arg_as_string` reports the length -2147483648, and for one of
4294967297 elements it reports the length 1, because the length is cast to
`int` before it is put in the message. -/
theorem r_arg_as_string_length_cast :
    r_arg_as_string (RObj.chr (List.replicate 2147483648 0)) "x" =
        r_abort "%s must be length 1, not length %i."
          [FmtArg.str "x", FmtArg.int (-2147483648)] ∧
      r_arg_as_string (RObj.chr (List.replicate 4294967297 0)) "x" =
        r_abort "%s must be length 1, not length %i." [FmtArg.str "x", FmtArg.int 1] := by
  have hl1 : r_length (RObj.chr (List.replicate 2147483648 0)) = 2147483648 := by
    simp only [r_length, List.length_replicate]
    rfl
  have hl2 : r_length (RObj.chr (List.replicate 4294967297 0)) = 4294967297 := by
    simp only [r_length, List.length_replicate]
    rfl
  constructor
  · rw [(r_arg_as_string_cases (RObj.chr (List.replicate 2147483648 0)) "x").2.1 rfl
      (by rw [hl1]; decide), hl1]
    rfl
  · rw [(r_arg_as_string_cases (RObj.chr (List.replicate 4294967297 0)) "x").2.1 rfl
      (by rw [hl2]; decide), hl2]
    rfl

/-! ### Terminator based equality against sized equality -/

/-- With enough fuel `strlen` finds the first nul byte. -/
theorem strlenFrom_of_isCStr (s : CharPtr) (n : Nat) (h : IsCStr s n) : ∀ fuel i : Nat,
    i ≤ n → n - i < fuel → strlenFrom s i fuel = some n := by
  intro fuel
  induction fuel with
  | zero =>
    intro i _ hf
    exact absurd hf (Nat.not_lt_zero _)
  | succ fuel ih =>
    intro i hi hf
    unfold strlenFrom
    by_cases hz : s i = 0
    · rw [if_pos hz]
      have : i = n := by
        rcases Nat.lt_or_ge i n with hlt | hge
        · exact absurd hz (h.2 i hlt)
        · omega
      rw [this]
    · rw [if_neg hz]
      have hne : i ≠ n := fun he => hz (he ▸ h.1)
      exact ih (i + 1) (by omega) (by omega)

/-- With enough fuel `strcmp` returns, and it returns zero exactly when the
two strings agree from offset `i` up to and including the terminator of the
first. -/
theorem strcmpFrom_of_isCStr (x y : CharPtr) (nx : Nat) (h : IsCStr x nx) : ∀ fuel i : Nat,
    i ≤ nx → nx - i < fuel →
      ∃ r, strcmpFrom x y i fuel = some r ∧ (r = 0 ↔ ∀ k, i ≤ k → k ≤ nx → x k = y k) := by
  intro fuel
  induction fuel with
  | zero =>
    intro i _ hf
    exact absurd hf (Nat.not_lt_zero _)
  | succ fuel ih =>
    intro i hi hf
    unfold strcmpFrom
    by_cases hne : x i ≠ y i
    · rw [if_pos hne]
      refine ⟨_, rfl, ?_⟩
      constructor
      · intro h0
        exfalso
        apply hne
        omega
      · intro hall
        exact absurd (hall i (Nat.le_refl i) hi) hne
    · rw [if_neg hne]
      have heq : x i = y i := not_not.mp hne
      by_cases hz : x i = 0
      · rw [if_pos hz]
        have hin : i = nx := by
          rcases Nat.lt_or_ge i nx with hlt | hge
          · exact absurd hz (h.2 i hlt)
          · omega
        refine ⟨0, rfl, ?_⟩
        refine ⟨fun _ k hk1 hk2 => ?_, fun _ => rfl⟩
        have : k = i := by omega
        rw [this]
        exact heq
      · rw [if_neg hz]
        have hne2 : i ≠ nx := fun he => hz (he ▸ h.1)
        obtain ⟨r, hr, hiff⟩ := ih (i + 1) (by omega) (by omega)
        refine ⟨r, hr, ?_⟩
        rw [hiff]
        constructor
        · intro hall k hk1 hk2
          rcases Nat.eq_or_lt_of_le hk1 with he | hlt
          · rw [← he]
            exact heq
          · exact hall k hlt hk2
        · intro hall k hk1 hk2
          exact hall k (by omega) hk2

/-- Two nul terminated strings agree up to and including the terminator of
the first exactly when they have the same length and the same bytes. -/
theorem agree_to_terminator_iff (x y : CharPtr) (nx ny : Nat) (hx : IsCStr x nx)
    (hy : IsCStr y ny) :
    (∀ k, 0 ≤ k → k ≤ nx → x k = y k) ↔ (nx = ny ∧ ∀ i, i < nx → x i = y i) := by
  constructor
  · intro hall
    have hlen : nx = ny := by
      rcases Nat.lt_trichotomy nx ny with hlt | heq | hgt
      · have h1 := hall nx (Nat.zero_le _) (Nat.le_refl _)
        rw [hx.1] at h1
        exact absurd h1.symm (hy.2 nx hlt)
      · exact heq
      · have h1 := hall ny (Nat.zero_le _) (Nat.le_of_lt hgt)
        rw [hy.1] at h1
        exact absurd h1 (hx.2 ny hgt)
    exact ⟨hlen, fun i hi => hall i (Nat.zero_le _) (Nat.le_of_lt hi)⟩
  · rintro ⟨hlen, hall⟩ k _ hk
    rcases Nat.eq_or_lt_of_le hk with he | hlt
    · rw [he, hx.1, hlen, hy.1]
    · exact hall k hlt

/-- C18: for two nul terminated strings `x` and `y` of lengths `nx` and `ny`,
and fuel enough to reach their terminators, `strlen` returns `nx` and `ny`,
`str_equal x y` returns what `str_equal_sized x y nx ny` returns, and that
result is true if and only if the two strings have the same length and the
same bytes. -/
theorem str_equal_eq_str_equal_sized (x y : CharPtr) (nx ny fuel : Nat) (hx : IsCStr x nx)
    (hy : IsCStr y ny) (hfx : nx < fuel) (hfy : ny < fuel) :
    strlen x fuel = some nx ∧ strlen y fuel = some ny ∧
      str_equal x y fuel = some (str_equal_sized x y nx ny) ∧
      (str_equal x y fuel = some true ↔ (nx = ny ∧ ∀ i, i < nx → x i = y i)) := by
  obtain ⟨r, hr, hiff⟩ := strcmpFrom_of_isCStr x y nx hx fuel 0 (Nat.zero_le _) (by omega)
  rw [agree_to_terminator_iff x y nx ny hx hy] at hiff
  have hsized : str_equal_sized x y nx ny = true ↔ (nx = ny ∧ ∀ i, i < nx → x i = y i) := by
    rw [str_equal_sized_iff]
    constructor
    · rintro ⟨hl, hall⟩
      exact ⟨hl, fun i hi => hall i hi (fun j hj => hx.2 j (Nat.lt_trans hj hi))⟩
    · rintro ⟨hl, hall⟩
      exact ⟨hl, fun k hk _ => hall k hk⟩
  have heq : str_equal x y fuel = some (r == 0) := by
    simp only [str_equal, strcmp, hr, Option.map_some']
  have hb : (r == 0) = str_equal_sized x y nx ny := by
    rw [Bool.eq_iff_iff, beq_iff_eq, hiff, hsized]
  refine ⟨strlenFrom_of_isCStr x nx hx fuel 0 (Nat.zero_le _) (by omega),
    strlenFrom_of_isCStr y ny hy fuel 0 (Nat.zero_le _) (by omega), ?_, ?_⟩
  · rw [heq, hb]
  · rw [heq, hb, Option.some.injEq, hsized]

/-- Witness of C18: `foo` and `foobar`, both nul terminated, are unequal for
`str_equal` as they are for `str_equal_sized` with their lengths 3 and 6. -/
theorem str_equal_eq_str_equal_sized_witness :
    str_equal (cstr [102, 111, 111]) (cstr [102, 111, 111, 98, 97, 114]) 7 =
      some (str_equal_sized (cstr [102, 111, 111]) (cstr [102, 111, 111, 98, 97, 114]) 3 6) :=
  (str_equal_eq_str_equal_sized (cstr [102, 111, 111]) (cstr [102, 111, 111, 98, 97, 114])
    3 6 7 ⟨rfl, by decide⟩ ⟨rfl, by decide⟩ (by decide) (by decide)).2.2.1

/-! ### Sized equality as an equivalence -/

/-- When two buffers agree wherever no nul byte of the first precedes, a
prefix without nul byte of the second is a prefix without nul byte of the
first. -/
theorem no_nul_transfer (x y : CharPtr) (n : Nat)
    (h : ∀ k, k < n → (∀ j, j < k → x j ≠ 0) → x k = y k) (k : Nat) (hk : k < n)
    (hy : ∀ j, j < k → y j ≠ 0) : ∀ j, j < k → x j ≠ 0 := by
  intro j
  induction j using Nat.strong_induction_on with
  | _ j ih =>
    intro hj
    rw [h j (Nat.lt_trans hj hk) (fun i hi => ih i hi (Nat.lt_trans hi hj))]
    exact hy j hj

/-- C19: `str_equal_sized` is an equivalence on sized byte spans, nul bytes
allowed: every span equals itself, equality is symmetric, and it is
transitive. -/
theorem str_equal_sized_equivalence (x y z : CharPtr) (a b c : Nat) :
    str_equal_sized x x a a = true ∧
      (str_equal_sized x y a b = true → str_equal_sized y x b a = true) ∧
      (str_equal_sized x y a b = true → str_equal_sized y z b c = true →
        str_equal_sized x z a c = true) := by
  refine ⟨(str_equal_sized_iff x x a a).mpr ⟨rfl, fun _ _ _ => rfl⟩, fun hxy => ?_,
    fun hxy hyz => ?_⟩
  · obtain ⟨hl, h⟩ := (str_equal_sized_iff x y a b).mp hxy
    subst hl
    refine (str_equal_sized_iff y x a a).mpr ⟨rfl, fun k hk hy => ?_⟩
    exact (h k hk (no_nul_transfer x y a h k hk hy)).symm
  · obtain ⟨hl1, h1⟩ := (str_equal_sized_iff x y a b).mp hxy
    obtain ⟨hl2, h2⟩ := (str_equal_sized_iff y z b c).mp hyz
    subst hl1
    subst hl2
    refine (str_equal_sized_iff x z a a).mpr ⟨rfl, fun k hk hx => ?_⟩
    have hy : ∀ j, j < k → y j ≠ 0 := by
      intro j hj
      rw [← h1 j (Nat.lt_trans hj hk) (fun i hi => hx i (Nat.lt_trans hi hj))]
      exact hx j hj
    rw [h1 k hk hx]
    exact h2 k hk hy

/-- Witness of C19: from `a\0b` equal to `a\0c`, the span `a\0c` is equal to
`a\0b`. -/
theorem str_equal_sized_equivalence_witness :
    str_equal_sized (cstr [97, 0, 99]) (cstr [97, 0, 98]) 3 3 = true :=
  (str_equal_sized_equivalence (cstr [97, 0, 98]) (cstr [97, 0, 99]) (cstr []) 3 3 0).2.1
    (by decide)

/-! ### Scans of concatenations -/

/-- C20: for each element kind the scan of a concatenation is the
disjunction of the scans of its parts, and the scans of two sequences with the
same elements in another order agree. -/
theorem any_missing_append (g : Globals) :
    ((∀ xs ys, r_lgl_any_missing g (RObj.lgl (xs ++ ys)) =
        (r_lgl_any_missing g (RObj.lgl xs) || r_lgl_any_missing g (RObj.lgl ys))) ∧
      (∀ xs ys, r_int_any_missing g (RObj.int (xs ++ ys)) =
        (r_int_any_missing g (RObj.int xs) || r_int_any_missing g (RObj.int ys))) ∧
      (∀ xs ys, r_chr_any_missing g (RObj.chr (xs ++ ys)) =
        (r_chr_any_missing g (RObj.chr xs) || r_chr_any_missing g (RObj.chr ys)))) ∧
    ((∀ xs ys, List.Perm xs ys →
        r_lgl_any_missing g (RObj.lgl xs) = r_lgl_any_missing g (RObj.lgl ys)) ∧
      (∀ xs ys, List.Perm xs ys →
        r_int_any_missing g (RObj.int xs) = r_int_any_missing g (RObj.int ys)) ∧
      (∀ xs ys, List.Perm xs ys →
        r_chr_any_missing g (RObj.chr xs) = r_chr_any_missing g (RObj.chr ys))) := by
  refine ⟨⟨fun xs ys => ?_, fun xs ys => ?_, fun xs ys => ?_⟩,
    ⟨fun xs ys hp => ?_, fun xs ys hp => ?_, fun xs ys hp => ?_⟩⟩
  · rw [Bool.eq_iff_iff, Bool.or_eq_true, r_lgl_any_missing_iff, r_lgl_any_missing_iff,
      r_lgl_any_missing_iff, List.mem_append]
  · rw [Bool.eq_iff_iff, Bool.or_eq_true, r_int_any_missing_iff, r_int_any_missing_iff,
      r_int_any_missing_iff, List.mem_append]
  · rw [Bool.eq_iff_iff, Bool.or_eq_true, r_chr_any_missing_iff, r_chr_any_missing_iff,
      r_chr_any_missing_iff, List.mem_append]
  · rw [Bool.eq_iff_iff, r_lgl_any_missing_iff, r_lgl_any_missing_iff]
    exact hp.mem_iff
  · rw [Bool.eq_iff_iff, r_int_any_missing_iff, r_int_any_missing_iff]
    exact hp.mem_iff
  · rw [Bool.eq_iff_iff, r_chr_any_missing_iff, r_chr_any_missing_iff]
    exact hp.mem_iff

/-- Witness of C20: the scan of `[NA, 1]` agrees with that of `[1, NA]`, and
the scan of `[1] ++ [NA]` is the disjunction of the scans of `[1]` and `[NA]`. -/
theorem any_missing_append_witness :
    r_int_any_missing ⟨-2147483648, -2147483648, 0⟩ (RObj.int [-2147483648, 1]) =
        r_int_any_missing ⟨-2147483648, -2147483648, 0⟩ (RObj.int [1, -2147483648]) ∧
      r_int_any_missing ⟨-2147483648, -2147483648, 0⟩ (RObj.int ([1] ++ [-2147483648])) =
        (r_int_any_missing ⟨-2147483648, -2147483648, 0⟩ (RObj.int [1]) ||
          r_int_any_missing ⟨-2147483648, -2147483648, 0⟩ (RObj.int [-2147483648])) :=
  ⟨(any_missing_append ⟨-2147483648, -2147483648, 0⟩).2.2.1 [-2147483648, 1] [1, -2147483648]
      (List.Perm.swap 1 (-2147483648) []),
    (any_missing_append ⟨-2147483648, -2147483648, 0⟩).1.2.1 [1] [-2147483648]⟩

end Treesitter
